import Mathlib

/-!
# Verification of the Dchat provider race engine

Shallow embedding of the streaming race engine in `src/app/api/chat/route.ts`
(the most complete iteration of the source): the SSE frame re-segmenter
(`processBuffer` / the `pump` done-branch inside `requestStream`), the liveness
frame detector (`isMeaningfulSSEFrame`), the race coordinator
(`raceProviders`), the retry wrapper (`raceWithRetry`) and the request
handler's inbound validation (`POST`).

Text is modelled as `List Char` (a JS string), streams as the list of text
chunks successively handed to the decoder, and the event-driven race as a fold
over the attempts' settlement events in settlement order.
-/

set_option maxHeartbeats 1000000

/-! ## Configuration constants (top of route.ts) -/

/-- `RACE_TIMEOUT_MS = 6000` — total deadline of one race. -/
def RACE_TIMEOUT_MS : Nat := 6000

/-- `MAX_RETRY_COUNT = 3` — maximum number of races attempted by `raceWithRetry`. -/
def MAX_RETRY_COUNT : Nat := 3

/-- `RETRY_DELAY_MS = 500` — delay between consecutive race attempts. -/
def RETRY_DELAY_MS : Nat := 500

/-! ## JSON values

The detector calls `JSON.parse` on each `data:` payload.  The parser itself is
kept abstract (a parameter `parse : List Char → Option Json`, `none` modelling
a thrown `SyntaxError`); its possible results are JSON values. -/

/-- A JSON value as produced by `JSON.parse`.  Numbers are modelled as
integers, which suffices for every check the detector performs (only
truthiness of a number is ever consulted). -/
inductive Json where
  | null
  | bool (b : Bool)
  | num (n : Int)
  | str (s : String)
  | arr (elems : List Json)
  | obj (fields : List (String × Json))

/-! ## JS string helpers used by the detector -/

/-- JS `\s` / `String.trim` whitespace (the characters relevant to SSE text). -/
def jsWs (c : Char) : Bool :=
  c = ' ' || c = '\t' || c = '\n' || c = '\r' || c = '\x0b' || c = '\x0c'

/-- JS `String.prototype.trim`. -/
def jsTrim (l : List Char) : List Char :=
  ((l.dropWhile jsWs).reverse.dropWhile jsWs).reverse

/-- JS `frame.split('\n')`. -/
def splitNl : List Char → List (List Char)
  | [] => [[]]
  | c :: rest =>
    if c = '\n' then [] :: splitNl rest
    else
      match splitNl rest with
      | [] => [[c]]
      | l :: ls => (c :: l) :: ls

/-- One loop iteration of `isMeaningfulSSEFrame` over a line: skip comment
lines (`line.startsWith(':')`), then match `/^data:\s?(.*)$/` and return the
captured payload.  In JS regex (no `m`/`s` flags) `.` and `$` cannot match a
carriage return, so a line whose payload part contains `'\r'` does not match;
a `'\r'` directly after `data:` can still be eaten by the optional `\s`. -/
def dataMatch (line : List Char) : Option (List Char) :=
  if line.head? = some ':' then none
  else
    match line with
    | 'd' :: 'a' :: 't' :: 'a' :: ':' :: rest =>
      match rest with
      | [] => some []
      | c :: rest2 =>
        if rest2.contains '\r' then none
        else if jsWs c then some rest2
        else some (c :: rest2)
    | _ => none

/-! ## JS-semantics accessors on JSON values -/

/-- Property lookup in an object's field list (the parsed object's final
state, so a plain association lookup). -/
def lookupField : List (String × Json) → String → Option Json
  | [], _ => none
  | (k, v) :: rest, key => if k = key then some v else lookupField rest key

/-- JS property access `x?.f`: `undefined` (`none`) unless `x` is an object
carrying the field.  (`null?.f` is `undefined`; string/number receivers have
none of the fields the detector reads.) -/
def jsGetField : Json → String → Option Json
  | Json.obj fields, key => lookupField fields key
  | _, _ => none

/-- JS index access `x?.[i]` for the shapes the detector reads (array
element; anything else gives `undefined`). -/
def jsIndex : Json → Nat → Option Json
  | Json.arr elems, i => elems[i]?
  | _, _ => none

/-- JS `a ?? b`: `b` when `a` is `undefined` (`none`) or `null`. -/
def orJS : Option Json → Option Json → Option Json
  | none, b => b
  | some Json.null, b => b
  | some v, _ => some v

/-- JS truthiness of a JSON value. -/
def jsTruthy : Json → Bool
  | Json.null => false
  | Json.bool b => b
  | Json.num n => n ≠ 0
  | Json.str s => s ≠ ""
  | Json.arr _ => true
  | Json.obj _ => true

/-! ## The liveness frame detector `isMeaningfulSSEFrame` -/

/-- `const choice = j?.choices?.[0]; const delta = choice?.delta ?? choice?.message ?? {}`. -/
def deltaOfJson (j : Json) : Json :=
  let choice := (jsGetField j "choices").bind (fun c => jsIndex c 0)
  (orJS (choice.bind (fun c => jsGetField c "delta"))
      (orJS (choice.bind (fun c => jsGetField c "message"))
        (some (Json.obj [])))).getD (Json.obj [])

/-- `typeof delta?.content === 'string' && delta.content.length > 0`. -/
def deltaContentSignal (delta : Json) : Bool :=
  match jsGetField delta "content" with
  | some (Json.str s) => s ≠ ""
  | _ => false

/-- `typeof fn.name === 'string' || (typeof fn.arguments === 'string' && fn.arguments.length > 0)`. -/
def fnInfoSignal (fn : Json) : Bool :=
  (match jsGetField fn "name" with
   | some (Json.str _) => true
   | _ => false)
  || (match jsGetField fn "arguments" with
      | some (Json.str s) => s ≠ ""
      | _ => false)

/-- `const fn = delta?.function_call ?? delta?.function; if (fn && (...))`. -/
def deltaFnSignal (delta : Json) : Bool :=
  match orJS (jsGetField delta "function_call") (jsGetField delta "function") with
  | some fn => jsTruthy fn && fnInfoSignal fn
  | none => false

/-- One element of `toolCalls.some(...)`: `const func = t.function; if (!func) return false; ...`. -/
def toolInfoSignal (t : Json) : Bool :=
  match jsGetField t "function" with
  | some f => jsTruthy f && fnInfoSignal f
  | none => false

/-- `Array.isArray(delta?.tool_calls)` and `toolCalls.length > 0 && toolCalls.some(...)`. -/
def deltaToolSignal (delta : Json) : Bool :=
  match jsGetField delta "tool_calls" with
  | some (Json.arr ts) => !ts.isEmpty && ts.any toolInfoSignal
  | _ => false

/-- The `try`-block body of the detector on a successfully parsed payload:
true iff the chat-completion delta carries content, a function call, or a
tool call with information. -/
def meaningfulJson (j : Json) : Bool :=
  let delta := deltaOfJson j
  deltaContentSignal delta || deltaFnSignal delta || deltaToolSignal delta

/-- The literal stream-termination sentinel `'[DONE]'`. -/
def doneSentinel : List Char := "[DONE]".toList

/-- The `data:` payloads collected by the detector's first loop:
`frame.split('\n').filter(l => l.length > 0)`, comment lines skipped, the
rest matched against `/^data:\s?(.*)$/`. -/
def dataPayloads (frame : List Char) : List (List Char) :=
  ((splitNl frame).filter (fun l => !l.isEmpty)).filterMap dataMatch

/-- One iteration of the detector's second loop over a raw payload:
blank or `[DONE]` payloads are skipped (`false` contribution), a parsed
payload is tested with `meaningfulJson`, and a payload that fails to parse is
meaningful as long as it is non-empty (`catch { return true }`). -/
def payloadMeaningful (parse : List Char → Option Json) (payloadRaw : List Char) : Bool :=
  let payload := jsTrim payloadRaw
  if payload = [] ∨ payload = doneSentinel then false
  else
    match parse payload with
    | some j => meaningfulJson j
    | none => true

/-- `isMeaningfulSSEFrame(frame)` from route.ts, parameterised by the JSON
parser.  The early-`return true` loop over payloads is the `List.any` fold. -/
def isMeaningfulSSEFrame (parse : List Char → Option Json) (frame : List Char) : Bool :=
  if frame = [] then false
  else
    let dataLines := dataPayloads frame
    if dataLines = [] then false
    else dataLines.any (payloadMeaningful parse)

/-! ## The frame re-segmenter (`requestStream`'s `processBuffer` and `pump`) -/

/-- `buffer.replace(/\r\n?/g, '\n')`: every `\r\n` pair and every bare `\r`
becomes a single `\n`. -/
def normalizeNewlines : List Char → List Char
  | [] => []
  | [c] => if c = '\r' then ['\n'] else [c]
  | c1 :: c2 :: rest =>
    if c1 = '\r' then
      if c2 = '\n' then '\n' :: normalizeNewlines rest
      else '\n' :: normalizeNewlines (c2 :: rest)
    else c1 :: normalizeNewlines (c2 :: rest)

/-- The `while ((idx = buffer.indexOf('\n\n')) !== -1)` loop: scanning left to
right, the text before the leftmost blank-line delimiter is emitted as a
complete frame (`buffer.slice(0, idx)`), the delimiter is dropped
(`buffer.slice(idx + 2)`) and the scan restarts; what remains when no
delimiter is left is the carried buffer.  `acc` is the already-scanned,
delimiter-free prefix of the current frame, in reverse. -/
def extractAux : List Char → List Char → List (List Char) × List Char
  | acc, [] => ([], acc.reverse)
  | acc, [c] => ([], acc.reverse ++ [c])
  | acc, c1 :: c2 :: rest =>
    if c1 = '\n' && c2 = '\n' then
      let next := extractAux [] rest
      (acc.reverse :: next.1, next.2)
    else extractAux (c1 :: acc) (c2 :: rest)

/-- `processBuffer()` from `requestStream`: normalize line endings (guarded by
`buffer.indexOf('\r') !== -1`, a pure optimisation) and extract every complete
frame, returning the emitted frames and the remaining buffer. -/
def processBuffer (buf : List Char) : List (List Char) × List Char :=
  let b := if buf.contains '\r' then normalizeNewlines buf else buf
  extractAux [] b

/-- The re-segmenter's chunk loop: each `reader.read()` chunk is appended to
the carried buffer and `processBuffer()` is run; returns all frames emitted by
the loop and the final carried buffer. -/
def sseRunAux : List Char → List (List Char) → List (List Char) × List Char
  | buf, [] => ([], buf)
  | buf, chunk :: chunks =>
    let step := processBuffer (buf ++ chunk)
    let rest := sseRunAux step.2 chunks
    (step.1 ++ rest.1, rest.2)

/-- The `done` branch of `pump`: a non-empty residual buffer is normalized and
flushed; unless it already ends with the blank-line delimiter, a closing
delimiter is appended, so the residue is emitted as one final complete frame.
(If it did end with the delimiter, the enqueued bytes are exactly the complete
frames extracted from it.) -/
def pumpFlush (buf : List Char) : List (List Char) :=
  if buf = [] then []
  else
    let b := if buf.contains '\r' then normalizeNewlines buf else buf
    if ['\n', '\n'] <:+ b then (extractAux [] b).1
    else [b]

/-- The complete sequence of frames the re-segmenter emits for a given
chunking of the upstream text: the chunk-loop frames followed by the
end-of-stream flush. -/
def sseFrames (chunks : List (List Char)) : List (List Char) :=
  let run := sseRunAux [] chunks
  run.1 ++ pumpFlush run.2

/-- No two adjacent newlines (no blank-line delimiter) occur in the text. -/
def noPair : List Char → Bool
  | c1 :: c2 :: rest => !(c1 = '\n' && c2 = '\n') && noPair (c2 :: rest)
  | _ => true

/-- No chunk boundary of the list falls between a `'\r'` and an immediately
following `'\n'` (i.e. no `"\r\n"` line ending is split across two reads). -/
def noSplitCR : List (List Char) → Bool
  | [] => true
  | chunk :: chunks =>
    !(decide (chunk.getLast? = some '\r') && decide (chunks.flatten.head? = some '\n'))
      && noSplitCR chunks

/-! ## The race coordinator `raceProviders`

One race is event-driven: each attempt settles exactly once (resolving with
its first meaningful frame, or rejecting).  The coordinator's callbacks are a
fold over the settlement events in settlement order. -/

/-- The settlement of one `requestStream` attempt: resolution with the
attempt's re-segmented frame stream, or rejection with a reason. -/
inductive AttemptOutcome where
  | ok (frames : List (List Char)) (providerName : String)
  | failed (reason : String)

/-- Whether an attempt settled by rejecting. -/
def AttemptOutcome.isFailed : AttemptOutcome → Bool
  | .ok _ _ => false
  | .failed _ => true

/-- The message of the error `raceProviders` rejects with when every attempt
has failed (a fixed string; the individual reasons are only logged). -/
def raceAllFailedMsg : String :=
  "所有配置的服务商均无法返回可用流，请检查网络、密钥或模型名称是否匹配。"

/-- The rejection message of `requestStream` when the upstream stream closes
without the loop ever seeing a meaningful frame. -/
def noMeaningfulFrameMsg (providerName : String) : String :=
  "[" ++ providerName ++ "] 流结束但未产生有效 SSE 帧"

/-- The mutable state of one `raceProviders` promise executor: the `settled`
flag, the resolution value (winner index, its stream and provider name), the
set of per-attempt controllers on which `abort()` has been invoked, whether
`clearTimeout` has run on the deadline timer, the `remaining` counter, and the
rejection value. -/
structure RaceState where
  settled : Bool
  winner : Option Nat
  output : Option (List (List Char))
  providerName : Option String
  aborted : List Nat
  timerCleared : Bool
  remaining : Nat
  rejectedWith : Option String

/-- `raceProviders`' state when the race starts over `n` attempts. -/
def raceInit (n : Nat) : RaceState :=
  { settled := false,
    winner := none,
    output := none,
    providerName := none,
    aborted := [],
    timerCleared := false,
    remaining := n,
    rejectedWith := none }

/-- One settlement callback of `raceProviders`: `if (settled) return;` — an
`ok` outcome promotes the attempt to winner, aborts every other attempt's
controller, clears the deadline timer and resolves; a failure decrements
`remaining` and, when no attempt is left, rejects with the fixed aggregate
message (after clearing the timer). -/
def raceStep (n : Nat) (st : RaceState) (ev : Nat × AttemptOutcome) : RaceState :=
  if st.settled then st
  else
    match ev.2 with
    | .ok frames name =>
      { st with
        settled := true,
        winner := some ev.1,
        output := some frames,
        providerName := some name,
        aborted := st.aborted ++ (List.range n).filter (fun j => j ≠ ev.1),
        timerCleared := true }
    | .failed _ =>
      let rem := st.remaining - 1
      if rem = 0 then
        { st with
          settled := true,
          remaining := rem,
          timerCleared := true,
          rejectedWith := some raceAllFailedMsg }
      else { st with remaining := rem }

/-- Folding the callbacks over a list of settlement events from a state. -/
def raceRunFrom (n : Nat) (st : RaceState) (events : List (Nat × AttemptOutcome)) : RaceState :=
  events.foldl (raceStep n) st

/-- `raceProviders` over `n` attempts, driven by the settlement events in
settlement order. -/
def raceProvidersRun (n : Nat) (events : List (Nat × AttemptOutcome)) : RaceState :=
  raceRunFrom n (raceInit n) events

/-- How one `requestStream` attempt that streams the given chunks and then
closes settles: it resolves (with its full re-segmented frame stream) iff some
frame emitted by the chunk loop is meaningful — the end-of-stream flush frame
is never tested — and otherwise rejects. -/
def requestStreamOutcome (parse : List Char → Option Json) (providerName : String)
    (chunks : List (List Char)) : AttemptOutcome :=
  if (sseRunAux [] chunks).1.any (isMeaningfulSSEFrame parse) then
    AttemptOutcome.ok (sseFrames chunks) providerName
  else AttemptOutcome.failed (noMeaningfulFrameMsg providerName)

/-! ## The retry wrapper `raceWithRetry` -/

/-- The observable actions of `raceWithRetry`: invoking the race coordinator
for attempt `k`, or sleeping between attempts. -/
inductive RetryAction where
  | race (attempt : Nat)
  | sleep (ms : Nat)
deriving DecidableEq

/-- Whether an action is a race-coordinator invocation. -/
def RetryAction.isRace : RetryAction → Bool
  | .race _ => true
  | .sleep _ => false

/-- The error thrown after the final failed attempt:
`` `在 ${MAX_RETRY_COUNT} 次尝试后仍未获得可用流：${lastErr.message}` ``. -/
def retryExhaustedMsg (lastErr : String) : String :=
  "在 " ++ toString MAX_RETRY_COUNT ++ " 次尝试后仍未获得可用流：" ++ lastErr

/-- The `for (attempt = 1; attempt <= MAX_RETRY_COUNT; ...)` loop of
`raceWithRetry` over the remaining attempt numbers: a successful race returns
immediately; a failure records the error and sleeps `RETRY_DELAY_MS` before
the next attempt (no sleep after the last); when attempts are exhausted the
annotated error is thrown.  Returns the performed actions and the outcome. -/
def retryLoop {α : Type} (results : Nat → Except String α) :
    List Nat → String → List RetryAction × Except String α
  | [], lastErr => ([], Except.error (retryExhaustedMsg lastErr))
  | attempt :: rest, _ =>
    match results attempt with
    | Except.ok r => ([RetryAction.race attempt], Except.ok r)
    | Except.error e =>
      let tail := retryLoop results rest e
      (RetryAction.race attempt ::
        ((if rest = [] then [] else [RetryAction.sleep RETRY_DELAY_MS]) ++ tail.1),
       tail.2)

/-- `raceWithRetry`, driven by the outcome of each race attempt (attempt `k`'s
race result is `results k`). -/
def raceWithRetry {α : Type} (results : Nat → Except String α) :
    List RetryAction × Except String α :=
  retryLoop results (List.range' 1 MAX_RETRY_COUNT) ""

/-- The action trace of a run whose first `k` attempts all fail, `0 ≤ k ≤ 3`:
races interleaved with one fixed delay between consecutive attempts. -/
def retryTrace : Nat → List RetryAction
  | 0 => []
  | 1 => [RetryAction.race 1]
  | 2 => [RetryAction.race 1, RetryAction.sleep RETRY_DELAY_MS, RetryAction.race 2]
  | _ => [RetryAction.race 1, RetryAction.sleep RETRY_DELAY_MS, RetryAction.race 2,
          RetryAction.sleep RETRY_DELAY_MS, RetryAction.race 3]

/-! ## The request handler `POST` (inbound validation) -/

/-- The outcome of one `POST` invocation, abstracted to what the inbound
validation determines: the HTTP status, the JSON error body (if any) and
whether the handler went on to issue provider network calls. -/
structure PostResult where
  status : Nat
  errorBody : Option Json
  providerCallsMade : Bool

/-- `{ error: '无效的消息格式' }`, the 400 body for a malformed message list. -/
def invalidMessagesBody : Json := Json.obj [("error", Json.str "无效的消息格式")]

/-- `POST` after a successful `req.json()`: the `messages` field must be an
array with at least one entry (`!Array.isArray(messages) || messages.length
=== 0` returns 400 before anything else); with no configured provider the
handler returns 500, still without a network call; otherwise it runs the race
(`raceWithRetry`, abstracted to its outcome) and streams the winner or maps
the final error to a 500. -/
def chatPOST (providers : List String) (raceOutcome : Except String String)
    (body : Json) : PostResult :=
  match jsGetField body "messages" with
  | some (Json.arr msgs) =>
    if msgs.isEmpty then
      { status := 400, errorBody := some invalidMessagesBody, providerCallsMade := false }
    else if providers = [] then
      { status := 500,
        errorBody := some (Json.obj [("error",
          Json.str "未配置任何服务商（请至少提供 BASE_URL_1/KEY_1/MODEL_1 等环境变量）")]),
        providerCallsMade := false }
    else
      match raceOutcome with
      | Except.ok _ => { status := 200, errorBody := none, providerCallsMade := true }
      | Except.error e =>
        { status := 500,
          errorBody := some (Json.obj [("error", Json.str "服务器内部错误"),
            ("message", Json.str e)]),
          providerCallsMade := true }
  | _ => { status := 400, errorBody := some invalidMessagesBody, providerCallsMade := false }

/-! # Theorems -/

/-! ## Liveness frame detector (claims C5, C6, C7) -/

/-- **C5.** A frame with no `data:` line, or all of whose `data:` payloads trim
to the empty string or to the `[DONE]` sentinel, is never meaningful; comment
lines contribute no payload, so they never make a frame meaningful. -/
theorem isMeaningfulSSEFrame_false_of_no_signal
    (parse : List Char → Option Json) (frame : List Char)
    (h : dataPayloads frame = [] ∨
      ∀ p ∈ dataPayloads frame, jsTrim p = [] ∨ jsTrim p = doneSentinel) :
    isMeaningfulSSEFrame parse frame = false := by
  unfold isMeaningfulSSEFrame
  by_cases hf : frame = []
  · simp [hf]
  · rw [if_neg hf]
    rcases h with h | h
    · simp [h]
    · by_cases hd : dataPayloads frame = []
      · simp [hd]
      · simp only [hd, if_false, if_neg hd]
        rw [List.any_eq_false]
        intro p hp
        unfold payloadMeaningful
        rcases h p hp with h2 | h2 <;> simp [h2]

/-- Witness for C5: a frame made of a heartbeat comment, a `[DONE]` payload and
a blank payload is not meaningful. -/
theorem isMeaningfulSSEFrame_false_of_no_signal_witness :
    isMeaningfulSSEFrame (fun _ => none) (": heartbeat\ndata: [DONE]\ndata:".toList) = false :=
  isMeaningfulSSEFrame_false_of_no_signal _ _ (Or.inr (by decide))

/-- **C6.** A frame one of whose `data:` payloads is non-blank, not the
sentinel and parses as JSON whose chat-completion delta carries non-empty
content, a function call, or informative tool calls, is meaningful. -/
theorem isMeaningfulSSEFrame_true_of_delta_signal
    (parse : List Char → Option Json) (frame p : List Char) (j : Json)
    (hp : p ∈ dataPayloads frame)
    (hne : jsTrim p ≠ [])
    (hdone : jsTrim p ≠ doneSentinel)
    (hparse : parse (jsTrim p) = some j)
    (hsig : deltaContentSignal (deltaOfJson j) = true ∨ deltaFnSignal (deltaOfJson j) = true ∨
      deltaToolSignal (deltaOfJson j) = true) :
    isMeaningfulSSEFrame parse frame = true := by
  have hf : frame ≠ [] := by
    intro h
    rw [h] at hp
    simp [dataPayloads, splitNl] at hp
  have hd : dataPayloads frame ≠ [] := List.ne_nil_of_mem hp
  unfold isMeaningfulSSEFrame
  rw [if_neg hf]
  simp only [hd, if_neg hd, if_neg not_false]
  rw [List.any_eq_true]
  refine ⟨p, hp, ?_⟩
  unfold payloadMeaningful
  rw [if_neg (by
    intro hc
    rcases hc with hc | hc
    · exact hne hc
    · exact hdone hc)]
  rw [hparse]
  unfold meaningfulJson
  rcases hsig with h | h | h <;> simp [h]

/-- Witness for C6: a payload parsing to a chat-completion delta with content
`"hi"` makes the frame meaningful. -/
theorem isMeaningfulSSEFrame_true_of_delta_signal_witness :
    isMeaningfulSSEFrame
      (fun _ => some (Json.obj [("choices",
        Json.arr [Json.obj [("delta", Json.obj [("content", Json.str "hi")])]])]))
      ("data: x".toList) = true :=
  isMeaningfulSSEFrame_true_of_delta_signal _ _ ['x'] _
    (by decide) (by decide) (by decide) rfl (Or.inl (by decide))

/-- **C7.** A frame one of whose `data:` payloads is non-blank, not the
sentinel, and fails to parse as JSON, is meaningful (permissive fallback:
`catch { return true }`). -/
theorem isMeaningfulSSEFrame_true_of_nonjson
    (parse : List Char → Option Json) (frame p : List Char)
    (hp : p ∈ dataPayloads frame)
    (hne : jsTrim p ≠ [])
    (hdone : jsTrim p ≠ doneSentinel)
    (hparse : parse (jsTrim p) = none) :
    isMeaningfulSSEFrame parse frame = true := by
  have hf : frame ≠ [] := by
    intro h
    rw [h] at hp
    simp [dataPayloads, splitNl] at hp
  have hd : dataPayloads frame ≠ [] := List.ne_nil_of_mem hp
  unfold isMeaningfulSSEFrame
  rw [if_neg hf]
  simp only [hd, if_neg hd, if_neg not_false]
  rw [List.any_eq_true]
  refine ⟨p, hp, ?_⟩
  unfold payloadMeaningful
  rw [if_neg (by
    intro hc
    rcases hc with hc | hc
    · exact hne hc
    · exact hdone hc)]
  rw [hparse]

/-- Witness for C7: with a parser rejecting everything, a non-empty non-JSON
payload makes the frame meaningful. -/
theorem isMeaningfulSSEFrame_true_of_nonjson_witness :
    isMeaningfulSSEFrame (fun _ => none) ("data: hello".toList) = true :=
  isMeaningfulSSEFrame_true_of_nonjson (fun _ => none) ("data: hello".toList)
    "hello".toList (by decide) (by decide) (by decide) rfl

/-! ## Request handler validation (claim C10) -/

/-- **C10.** A request body whose `messages` field is an array with zero
entries is rejected with HTTP 400 and the JSON error body, before any
provider network call is issued. -/
theorem chatPOST_empty_messages_400
    (providers : List String) (raceOutcome : Except String String) (body : Json)
    (h : jsGetField body "messages" = some (Json.arr [])) :
    chatPOST providers raceOutcome body =
      { status := 400, errorBody := some invalidMessagesBody, providerCallsMade := false } := by
  unfold chatPOST
  rw [h]
  simp

/-- Witness for C10 at a concrete empty-`messages` body. -/
theorem chatPOST_empty_messages_400_witness :
    chatPOST ["Provider-1"] (Except.ok "Provider-1") (Json.obj [("messages", Json.arr [])]) =
      { status := 400, errorBody := some invalidMessagesBody, providerCallsMade := false } :=
  chatPOST_empty_messages_400 _ _ _ rfl

/-! ## Retry wrapper (claim C4) -/

/-- **C4.** `raceWithRetry` invokes the race coordinator at most
`MAX_RETRY_COUNT = 3` times; it returns the first successful race result with
no further attempts; one fixed `RETRY_DELAY_MS` sleep separates consecutive
attempts; and when every attempt fails, the final error is the last race's
error annotated with the attempt count. -/
theorem raceWithRetry_spec {α : Type} (results : Nat → Except String α) :
    ((raceWithRetry results).1.filter RetryAction.isRace).length ≤ MAX_RETRY_COUNT
    ∧ (∀ r, results 1 = Except.ok r →
        raceWithRetry results = (retryTrace 1, Except.ok r))
    ∧ (∀ e1 r, results 1 = Except.error e1 → results 2 = Except.ok r →
        raceWithRetry results = (retryTrace 2, Except.ok r))
    ∧ (∀ e1 e2 r, results 1 = Except.error e1 → results 2 = Except.error e2 →
        results 3 = Except.ok r →
        raceWithRetry results = (retryTrace 3, Except.ok r))
    ∧ (∀ e1 e2 e3, results 1 = Except.error e1 → results 2 = Except.error e2 →
        results 3 = Except.error e3 →
        raceWithRetry results = (retryTrace 3, Except.error (retryExhaustedMsg e3))) := by
  have hrange : List.range' 1 MAX_RETRY_COUNT = [1, 2, 3] := rfl
  refine ⟨?_, ?_, ?_, ?_, ?_⟩
  · unfold raceWithRetry
    rw [hrange]
    rcases h1 : results 1 with e1 | r1 <;> rcases h2 : results 2 with e2 | r2 <;>
      rcases h3 : results 3 with e3 | r3 <;>
      simp [retryLoop, h1, h2, h3, RetryAction.isRace, MAX_RETRY_COUNT]
  · intro r h1
    unfold raceWithRetry
    rw [hrange]
    simp [retryLoop, h1, retryTrace]
  · intro e1 r h1 h2
    unfold raceWithRetry
    rw [hrange]
    simp [retryLoop, h1, h2, retryTrace]
  · intro e1 e2 r h1 h2 h3
    unfold raceWithRetry
    rw [hrange]
    simp [retryLoop, h1, h2, h3, retryTrace]
  · intro e1 e2 e3 h1 h2 h3
    unfold raceWithRetry
    rw [hrange]
    simp [retryLoop, h1, h2, h3, retryTrace]

/-- Witness for C4: with attempt 1 failing and attempt 2 succeeding, the
wrapper performs race 1, one 500 ms delay, race 2, and returns the success. -/
theorem raceWithRetry_spec_witness :
    raceWithRetry (fun k => if k = 2 then Except.ok 42 else Except.error "x") =
      (retryTrace 2, Except.ok 42) :=
  (raceWithRetry_spec (fun k => if k = 2 then Except.ok 42 else Except.error "x")).2.2.1
    "x" 42 rfl rfl

/-! ## Race coordinator (claims C1, C9, C3) -/

/-- A settled race ignores any further settlement event (`if (settled) return`). -/
theorem raceStep_of_settled (n : Nat) (st : RaceState) (ev : Nat × AttemptOutcome)
    (h : st.settled = true) : raceStep n st ev = st := by
  unfold raceStep
  rw [h]
  simp

/-- A settled race ignores every further settlement event. -/
theorem raceRunFrom_of_settled (n : Nat) (st : RaceState)
    (evs : List (Nat × AttemptOutcome)) (h : st.settled = true) :
    raceRunFrom n st evs = st := by
  induction evs with
  | nil => rfl
  | cons e es ih =>
    unfold raceRunFrom at ih ⊢
    rw [List.foldl_cons, raceStep_of_settled n st e h, ih]

/-- Running a race over concatenated event lists runs them in sequence. -/
theorem raceRunFrom_append (n : Nat) (st : RaceState)
    (evs1 evs2 : List (Nat × AttemptOutcome)) :
    raceRunFrom n st (evs1 ++ evs2) = raceRunFrom n (raceRunFrom n st evs1) evs2 := by
  unfold raceRunFrom
  rw [List.foldl_append]

/-- A race state with a promoted winner is settled (invariant of the fold). -/
theorem raceRunFrom_winner_settled (n : Nat) :
    ∀ (evs : List (Nat × AttemptOutcome)) (st : RaceState),
    (st.winner.isSome = true → st.settled = true) →
    (raceRunFrom n st evs).winner.isSome = true → (raceRunFrom n st evs).settled = true := by
  intro evs
  induction evs with
  | nil => intro st h; exact h
  | cons e es ih =>
    intro st h
    unfold raceRunFrom
    rw [List.foldl_cons]
    apply ih
    by_cases hs : st.settled = true
    · rw [raceStep_of_settled n st e hs]
      intro _; exact hs
    · have hs' : st.settled = false := by simpa using hs
      have hw : st.winner = none := by
        rcases hwo : st.winner with _ | k
        · rfl
        · exact absurd (h (by rw [hwo]; rfl)) hs
      unfold raceStep
      rw [hs']
      simp only [Bool.false_eq_true, if_false]
      rcases e with ⟨i, out⟩
      cases out with
      | ok fr nm => intro _; rfl
      | failed r =>
        by_cases hr : st.remaining - 1 = 0 <;> simp [hr, hw]

/-- Processing only failure events from an unsettled state with attempts to
spare just counts `remaining` down and changes nothing else. -/
theorem raceRunFrom_failures (n : Nat) :
    ∀ (pre : List (Nat × AttemptOutcome)) (st : RaceState),
    (∀ ev ∈ pre, ev.2.isFailed = true) → st.settled = false →
    pre.length < st.remaining →
    raceRunFrom n st pre = { st with remaining := st.remaining - pre.length } := by
  intro pre
  induction pre with
  | nil =>
    intro st _ _ _
    show st = _
    simp
  | cons e es ih =>
    intro st hall hs hlen
    unfold raceRunFrom
    rw [List.foldl_cons]
    have he : e.2.isFailed = true := hall e (by simp)
    rcases e with ⟨i, out⟩
    cases out with
    | ok fr nm => simp [AttemptOutcome.isFailed] at he
    | failed r =>
      have hrem : ¬(st.remaining - 1 = 0) := by
        simp only [List.length_cons] at hlen
        omega
      have hstep : raceStep n st (i, AttemptOutcome.failed r) =
          { st with remaining := st.remaining - 1 } := by
        unfold raceStep
        rw [hs]
        simp [hrem]
      rw [hstep]
      have := ih { st with remaining := st.remaining - 1 }
        (fun ev hev => hall ev (by simp [hev])) (by simp [hs]) (by
          simp only [List.length_cons] at hlen
          simp only [RaceState.mk.injEq]
          omega)
      unfold raceRunFrom at this
      rw [this]
      simp only [List.length_cons]
      congr 1
      omega

/-- **C9.** Winner promotion is irreversible: once a race has resolved with a
winner, no later settlement event (another success, a failure, or the
deadline's abort-induced failures) changes the winner — or anything else
about the race's resolution. -/
theorem race_winner_promotion_irreversible (n : Nat)
    (evs1 evs2 : List (Nat × AttemptOutcome)) (k : Nat)
    (h : (raceProvidersRun n evs1).winner = some k) :
    (raceProvidersRun n (evs1 ++ evs2)).winner = some k ∧
    raceProvidersRun n (evs1 ++ evs2) = raceProvidersRun n evs1 := by
  have hsettled : (raceProvidersRun n evs1).settled = true := by
    apply raceRunFrom_winner_settled n evs1 (raceInit n)
    · intro hw
      simp [raceInit] at hw
    · rw [show raceRunFrom n (raceInit n) evs1 = raceProvidersRun n evs1 from rfl, h]
      rfl
  have happ : raceProvidersRun n (evs1 ++ evs2) = raceProvidersRun n evs1 := by
    unfold raceProvidersRun
    rw [raceRunFrom_append]
    exact raceRunFrom_of_settled n _ evs2 hsettled
  exact ⟨by rw [happ, h], happ⟩

/-- Witness for C9: after attempt 0 wins, a later failure event for attempt 1
does not change the winner. -/
theorem race_winner_promotion_irreversible_witness :
    (raceProvidersRun 2 ([(0, AttemptOutcome.ok [] "Provider-1")] ++
      [(1, AttemptOutcome.failed "late")])).winner = some 0 ∧
    raceProvidersRun 2 ([(0, AttemptOutcome.ok [] "Provider-1")] ++
      [(1, AttemptOutcome.failed "late")]) =
      raceProvidersRun 2 [(0, AttemptOutcome.ok [] "Provider-1")] :=
  race_winner_promotion_irreversible 2 [(0, AttemptOutcome.ok [] "Provider-1")]
    [(1, AttemptOutcome.failed "late")] 0 rfl

/-- **C1.** The first attempt to settle successfully — i.e. the first attempt
whose re-segmented stream produced a frame the liveness detector accepts
(`requestStream` resolves exactly then) — is promoted to winner: at that very
event all other attempts' controllers are aborted, the deadline timer is
cleared, and the race resolves with that attempt's re-segmented frame stream,
which contains the winning frame followed by all of that attempt's later
frames in order; subsequent events change nothing. -/
theorem raceProviders_first_meaningful_wins
    (parse : List Char → Option Json) (n : Nat)
    (pre post : List (Nat × AttemptOutcome))
    (k : Nat) (nmk : String) (chunksk : List (List Char)) (w : List Char)
    (hpre : ∀ ev ∈ pre, ev.2.isFailed = true)
    (hlen : (pre ++ (k, requestStreamOutcome parse nmk chunksk) :: post).length = n)
    (hwin : (sseRunAux [] chunksk).1.find? (isMeaningfulSSEFrame parse) = some w) :
    (raceProvidersRun n (pre ++ (k, requestStreamOutcome parse nmk chunksk) :: post)).winner
        = some k ∧
    (raceProvidersRun n (pre ++ (k, requestStreamOutcome parse nmk chunksk) :: post)).providerName
        = some nmk ∧
    (raceProvidersRun n (pre ++ (k, requestStreamOutcome parse nmk chunksk) :: post)).output
        = some (sseFrames chunksk) ∧
    (raceProvidersRun n (pre ++ (k, requestStreamOutcome parse nmk chunksk) :: post)).timerCleared
        = true ∧
    (raceProvidersRun n (pre ++ (k, requestStreamOutcome parse nmk chunksk) :: post)).rejectedWith
        = none ∧
    (∀ j, j < n → j ≠ k →
      j ∈ (raceProvidersRun n (pre ++ (k, requestStreamOutcome parse nmk chunksk) :: post)).aborted) ∧
    raceProvidersRun n (pre ++ (k, requestStreamOutcome parse nmk chunksk) :: post)
        = raceProvidersRun n (pre ++ [(k, requestStreamOutcome parse nmk chunksk)]) ∧
    (∃ fs1 fs2, sseFrames chunksk = fs1 ++ w :: fs2 ∧
      isMeaningfulSSEFrame parse w = true ∧
      ∀ f ∈ fs1, isMeaningfulSSEFrame parse f = false) := by
  obtain ⟨hw, fs1, fs2, hsplit, hfs1⟩ := List.find?_eq_some.mp hwin
  have hany : (sseRunAux [] chunksk).1.any (isMeaningfulSSEFrame parse) = true :=
    List.any_eq_true.mpr ⟨w, by rw [hsplit]; simp, hw⟩
  have hok : requestStreamOutcome parse nmk chunksk
      = AttemptOutcome.ok (sseFrames chunksk) nmk := by
    unfold requestStreamOutcome
    rw [hany]
    simp
  have hprelen : pre.length < n := by
    rw [← hlen]
    simp only [List.length_append, List.length_cons]
    omega
  have hS1 : raceRunFrom n (raceInit n) pre
      = { raceInit n with remaining := n - pre.length } :=
    raceRunFrom_failures n pre (raceInit n) hpre rfl hprelen
  have hstep : raceStep n { raceInit n with remaining := n - pre.length }
      (k, AttemptOutcome.ok (sseFrames chunksk) nmk) =
      { settled := true,
        winner := some k,
        output := some (sseFrames chunksk),
        providerName := some nmk,
        aborted := (List.range n).filter (fun j => j ≠ k),
        timerCleared := true,
        remaining := n - pre.length,
        rejectedWith := none } := by
    unfold raceStep
    simp [raceInit]
  have hshort : raceProvidersRun n (pre ++ [(k, requestStreamOutcome parse nmk chunksk)])
      = { settled := true,
          winner := some k,
          output := some (sseFrames chunksk),
          providerName := some nmk,
          aborted := (List.range n).filter (fun j => j ≠ k),
          timerCleared := true,
          remaining := n - pre.length,
          rejectedWith := none } := by
    unfold raceProvidersRun
    rw [raceRunFrom_append, hS1, hok]
    unfold raceRunFrom
    rw [List.foldl_cons, List.foldl_nil]
    exact hstep
  have hfull : raceProvidersRun n (pre ++ (k, requestStreamOutcome parse nmk chunksk) :: post)
      = raceProvidersRun n (pre ++ [(k, requestStreamOutcome parse nmk chunksk)]) := by
    unfold raceProvidersRun
    rw [show pre ++ (k, requestStreamOutcome parse nmk chunksk) :: post
        = (pre ++ [(k, requestStreamOutcome parse nmk chunksk)]) ++ post by simp]
    rw [raceRunFrom_append]
    apply raceRunFrom_of_settled
    show (raceProvidersRun n (pre ++ [(k, requestStreamOutcome parse nmk chunksk)])).settled = true
    rw [hshort]
  rw [hfull, hshort]
  refine ⟨rfl, rfl, rfl, rfl, rfl, ?_, ?_, fs1, fs2 ++ pumpFlush (sseRunAux [] chunksk).2, ?_, hw, ?_⟩
  · intro j hj hjk
    simp [List.mem_filter, List.mem_range, hj, hjk]
  · rfl
  · show (sseRunAux [] chunksk).1 ++ pumpFlush (sseRunAux [] chunksk).2 = _
    rw [hsplit]
    simp
  · intro f hf
    have h2 := hfs1 f hf
    cases hb : isMeaningfulSSEFrame parse f
    · rfl
    · rw [hb] at h2
      simp at h2

/-- Witness for C1: attempt 1 fails first, then attempt 0 produces the
meaningful frame `data: hi` and wins. -/
theorem raceProviders_first_meaningful_wins_witness :
    (raceProvidersRun 2 ([(1, AttemptOutcome.failed "[Provider-2] HTTP 500 – x")] ++
      (0, requestStreamOutcome (fun _ => none) "Provider-1" [("data: hi\n\n").toList]) :: [])).winner
      = some 0 :=
  (raceProviders_first_meaningful_wins (fun _ => none) 2
    [(1, AttemptOutcome.failed "[Provider-2] HTTP 500 – x")] [] 0 "Provider-1"
    [("data: hi\n\n").toList] ("data: hi").toList
    (by decide) rfl (by decide)).1

/-- **C3 (amended).** When every attempt in a race fails, the race rejects —
with the race's fixed aggregate error message (`raceAllFailedMsg`), the timer
cleared and no winner. -/
theorem raceProviders_all_fail_rejects_fixed (n : Nat)
    (events : List (Nat × AttemptOutcome))
    (hall : ∀ ev ∈ events, ev.2.isFailed = true)
    (hlen : events.length = n) (hn : 0 < n) :
    (raceProvidersRun n events).rejectedWith = some raceAllFailedMsg ∧
    (raceProvidersRun n events).winner = none ∧
    (raceProvidersRun n events).settled = true ∧
    (raceProvidersRun n events).timerCleared = true := by
  rcases events.eq_nil_or_concat with rfl | ⟨pre, evl, rfl⟩
  · rw [List.length_nil] at hlen
    omega
  · have hprelen : pre.length < n := by
      rw [← hlen]
      simp
    have hS1 : raceRunFrom n (raceInit n) pre
        = { raceInit n with remaining := n - pre.length } :=
      raceRunFrom_failures n pre (raceInit n)
        (fun ev hev => hall ev (by simp [hev])) rfl hprelen
    have hrem1 : n - pre.length = 1 := by
      rw [← hlen]
      rw [List.length_concat]
      omega
    have hfl : evl.2.isFailed = true := hall evl (by simp)
    rcases evl with ⟨i, out⟩
    cases out with
    | ok fr nm => simp [AttemptOutcome.isFailed] at hfl
    | failed r =>
      unfold raceProvidersRun
      rw [List.concat_eq_append, raceRunFrom_append, hS1]
      unfold raceRunFrom
      rw [List.foldl_cons, List.foldl_nil]
      unfold raceStep
      simp [raceInit, hrem1]

/-- Witness for C3 (amended) at two concrete failing attempts. -/
theorem raceProviders_all_fail_rejects_fixed_witness :
    (raceProvidersRun 2 [(0, AttemptOutcome.failed "[Provider-1] HTTP 500 – boom"),
      (1, AttemptOutcome.failed "[Provider-2] HTTP 401 – denied")]).rejectedWith
      = some raceAllFailedMsg :=
  (raceProviders_all_fail_rejects_fixed 2
    [(0, AttemptOutcome.failed "[Provider-1] HTTP 500 – boom"),
     (1, AttemptOutcome.failed "[Provider-2] HTTP 401 – denied")]
    (by decide) rfl (by decide)).1

/-- **C3 (counterexample).** The rejection error after all attempts fail is
the fixed message: it names neither the providers nor their individual
failure reasons — here neither `Provider-1`, nor the HTTP status text, nor
the upstream error body occurs in it. -/
theorem raceProviders_error_lists_no_reasons :
    (raceProvidersRun 2 [(0, AttemptOutcome.failed "[Provider-1] HTTP 500 – boom"),
      (1, AttemptOutcome.failed "[Provider-2] HTTP 401 – denied")]).rejectedWith
      = some raceAllFailedMsg ∧
    ¬("Provider-1".toList <:+: raceAllFailedMsg.toList) ∧
    ¬("HTTP".toList <:+: raceAllFailedMsg.toList) ∧
    ¬("boom".toList <:+: raceAllFailedMsg.toList) := by
  decide

/-! ## Re-segmenter lemmas (towards claims C2 and C8) -/

/-- Appending one character: delimiter-freeness means the prefix is
delimiter-free and no pair is formed at the seam. -/
theorem noPair_snoc_iff (l : List Char) (c : Char) :
    noPair (l ++ [c]) = true ↔
      (noPair l = true ∧ ¬(l.getLast? = some '\n' ∧ c = '\n')) := by
  induction l with
  | nil => simp [noPair]
  | cons x xs ih =>
    cases xs with
    | nil =>
      by_cases hx : x = '\n' <;> by_cases hc : c = '\n' <;>
        simp [noPair, hx, hc]
    | cons y ys =>
      have h1 : noPair ((x :: y :: ys) ++ [c])
          = (!(decide (x = '\n') && decide (y = '\n')) && noPair ((y :: ys) ++ [c])) := rfl
      have h2 : noPair (x :: y :: ys)
          = (!(decide (x = '\n') && decide (y = '\n')) && noPair (y :: ys)) := rfl
      rw [h1, h2, List.getLast?_cons_cons]
      simp only [Bool.and_eq_true, ih]
      tauto

/-- The scan of `extractAux` may move a non-delimiter character from the input
onto the accumulator. -/
theorem extractAux_shift (acc : List Char) (a : Char) (input : List Char)
    (h : a = '\n' → input.head? ≠ some '\n') :
    extractAux acc (a :: input) = extractAux (a :: acc) input := by
  cases input with
  | nil => simp [extractAux]
  | cons b rest =>
    have hab : (decide (a = '\n') && decide (b = '\n')) = false := by
      by_cases ha : a = '\n'
      · have hb := h ha
        simp only [List.head?_cons, ne_eq, Option.some.injEq] at hb
        simp [ha, hb]
      · simp [ha]
    simp [extractAux, hab]

/-- Restart lemma: rescanning the whole pending text (reversed accumulator
followed by the input) from scratch agrees with continuing the scan, as long
as the pending text is delimiter-free and no delimiter straddles the seam. -/
theorem extractAux_restart (acc input : List Char)
    (h1 : noPair acc.reverse = true)
    (h2 : acc.head? = some '\n' → input.head? ≠ some '\n') :
    extractAux [] (acc.reverse ++ input) = extractAux acc input := by
  induction acc generalizing input with
  | nil => simp
  | cons a acc' ih =>
    have hrev : (a :: acc').reverse = acc'.reverse ++ [a] := List.reverse_cons a acc'
    rw [hrev] at h1
    obtain ⟨hnp', hb⟩ := (noPair_snoc_iff acc'.reverse a).mp h1
    rw [List.getLast?_reverse] at hb
    have hstep : acc'.head? = some '\n' → (a :: input).head? ≠ some '\n' := by
      intro hhd
      simp only [List.head?_cons, ne_eq, Option.some.injEq]
      intro ha
      exact hb ⟨hhd, ha⟩
    rw [hrev, List.append_assoc]
    have hsing : [a] ++ input = a :: input := rfl
    rw [hsing, ih (a :: input) hnp' hstep]
    apply extractAux_shift
    intro ha
    apply h2
    simp [ha]

/-- A delimiter-free buffer passes through `extractAux` untouched: no frame is
emitted and the buffer is carried. -/
theorem extractAux_noPair_id (s : List Char) (h : noPair s = true) :
    extractAux [] s = ([], s) := by
  have h2 : s.reverse.head? = some '\n' → ([] : List Char).head? ≠ some '\n' := by
    intro _
    simp
  have := extractAux_restart s.reverse [] (by rw [List.reverse_reverse]; exact h) h2
  rw [List.reverse_reverse, List.append_nil] at this
  rw [this]
  simp [extractAux]

/-- Emission lemma: when the leftmost delimiter of the buffer sits right after
a delimiter-free prefix `u`, the scan emits `u` as a frame and goes on after
the delimiter. -/
theorem extractAux_emit (u w : List Char) (h : noPair (u ++ ['\n']) = true) :
    extractAux [] (u ++ '\n' :: '\n' :: w)
      = (u :: (extractAux [] w).1, (extractAux [] w).2) := by
  obtain ⟨hu, hlast⟩ := (noPair_snoc_iff u '\n').mp h
  have h2 : u.reverse.head? = some '\n' → ('\n' :: '\n' :: w).head? ≠ some '\n' := by
    rw [List.head?_reverse]
    intro hg
    exact absurd ⟨hg, rfl⟩ hlast
  have hrestart := extractAux_restart u.reverse ('\n' :: '\n' :: w)
    (by rw [List.reverse_reverse]; exact hu) h2
  rw [List.reverse_reverse] at hrestart
  rw [hrestart]
  simp [extractAux]

/-- Fueled form of the composition lemma for the delimiter scan: scanning
`input ++ B` is scanning `input`, then rescanning the carried remainder
together with `B`.  The invariant carried through the scan: the reversed
accumulator is delimiter-free and no delimiter straddles the
accumulator/input seam. -/
theorem extractAux_append_aux (n : Nat) :
    ∀ (input : List Char), input.length ≤ n → ∀ (acc B : List Char),
    noPair acc.reverse = true →
    (acc.head? = some '\n' → (input ++ B).head? ≠ some '\n') →
    extractAux acc (input ++ B) =
      ((extractAux acc input).1 ++ (extractAux [] ((extractAux acc input).2 ++ B)).1,
       (extractAux [] ((extractAux acc input).2 ++ B)).2) := by
  induction n with
  | zero =>
    intro input hlen acc B h1 h2
    have hnil : input = [] := List.eq_nil_of_length_eq_zero (Nat.le_zero.mp hlen)
    subst hnil
    simp only [List.nil_append]
    have hz : extractAux acc ([] : List Char) = ([], acc.reverse) := rfl
    rw [hz]
    rw [extractAux_restart acc B h1 (fun h => by simpa using h2 h)]
    simp
  | succ m ih =>
    intro input hlen acc B h1 h2
    match input with
    | [] =>
      simp only [List.nil_append]
      have hz : extractAux acc ([] : List Char) = ([], acc.reverse) := rfl
      rw [hz]
      rw [extractAux_restart acc B h1 (fun h => by simpa using h2 h)]
      simp
    | [c] =>
      have hmid : extractAux acc [c] = ([], acc.reverse ++ [c]) := rfl
      rw [hmid]
      have hseam : acc.head? = some '\n' → c ≠ '\n' := by
        intro hh
        have := h2 hh
        simpa using this
      cases B with
      | nil =>
        simp only [List.append_nil]
        have hre : extractAux [] (acc.reverse ++ [c]) = extractAux acc [c] :=
          extractAux_restart acc [c] h1 (fun h => by simpa using hseam h)
        rw [hre, hmid]
        simp
      | cons b B2 =>
        by_cases hcb : c = '\n' ∧ b = '\n'
        · obtain ⟨rfl, rfl⟩ := hcb
          have hacc : acc.head? ≠ some '\n' := by
            intro hh
            exact hseam hh rfl
          have hnp2 : noPair (acc.reverse ++ ['\n']) = true := by
            rw [noPair_snoc_iff]
            refine ⟨h1, ?_⟩
            rw [List.getLast?_reverse]
            rintro ⟨hg, -⟩
            exact hacc hg
          have hemit := extractAux_emit acc.reverse B2 hnp2
          have hshape : (['\n'] ++ '\n' :: B2 : List Char) = '\n' :: '\n' :: B2 := rfl
          rw [hshape]
          have hshape2 : acc.reverse ++ ['\n'] ++ ('\n' :: B2)
              = acc.reverse ++ '\n' :: '\n' :: B2 := by
            rw [List.append_assoc]
            rfl
          rw [hshape2, hemit]
          have hscan : extractAux acc ('\n' :: '\n' :: B2)
              = (acc.reverse :: (extractAux [] B2).1, (extractAux [] B2).2) := by
            simp [extractAux]
          rw [hscan]
          simp
        · have hseam2 : (c :: acc).head? = some '\n' → (b :: B2).head? ≠ some '\n' := by
            simp only [List.head?_cons, ne_eq, Option.some.injEq]
            intro hc hb
            exact hcb ⟨hc, hb⟩
          have hnp2 : noPair ((c :: acc).reverse) = true := by
            rw [List.reverse_cons, noPair_snoc_iff]
            refine ⟨h1, ?_⟩
            rw [List.getLast?_reverse]
            rintro ⟨hg, hc⟩
            exact hseam hg hc
          have hre : extractAux [] ((c :: acc).reverse ++ (b :: B2))
              = extractAux (c :: acc) (b :: B2) :=
            extractAux_restart (c :: acc) (b :: B2) hnp2 hseam2
          rw [List.reverse_cons] at hre
          have hshape : ([c] ++ b :: B2 : List Char) = c :: b :: B2 := rfl
          rw [hshape]
          have hstep : extractAux acc (c :: b :: B2) = extractAux (c :: acc) (b :: B2) :=
            extractAux_shift acc c (b :: B2) (fun hc => by
              simp only [List.head?_cons, ne_eq, Option.some.injEq]
              intro hb
              exact hcb ⟨hc, hb⟩)
          rw [hstep, ← hre]
          simp
    | c1 :: c2 :: rest =>
      by_cases hp : c1 = '\n' ∧ c2 = '\n'
      · obtain ⟨rfl, rfl⟩ := hp
        have hscanB : extractAux acc ('\n' :: '\n' :: (rest ++ B))
            = (acc.reverse :: (extractAux [] (rest ++ B)).1, (extractAux [] (rest ++ B)).2) := by
          simp [extractAux]
        have hscan : extractAux acc ('\n' :: '\n' :: rest)
            = (acc.reverse :: (extractAux [] rest).1, (extractAux [] rest).2) := by
          simp [extractAux]
        have hlen2 : rest.length ≤ m := by
          simp only [List.length_cons] at hlen
          omega
        have hih := ih rest hlen2 [] B (by simp [noPair]) (by simp)
        have hshape : ('\n' :: '\n' :: rest) ++ B = '\n' :: '\n' :: (rest ++ B) := rfl
        rw [hshape, hscanB, hscan, hih]
        simp
      · have hseam : (c1 = '\n' → c2 ≠ '\n') := fun hc1 hc2 => hp ⟨hc1, hc2⟩
        have hstepB : extractAux acc ((c1 :: c2 :: rest) ++ B)
            = extractAux (c1 :: acc) ((c2 :: rest) ++ B) := by
          have : (c1 :: c2 :: rest) ++ B = c1 :: ((c2 :: rest) ++ B) := rfl
          rw [this]
          exact extractAux_shift acc c1 ((c2 :: rest) ++ B) (fun hc1 => by
            simp only [List.cons_append, List.head?_cons, ne_eq, Option.some.injEq]
            exact hseam hc1)
        have hstep : extractAux acc (c1 :: c2 :: rest)
            = extractAux (c1 :: acc) (c2 :: rest) :=
          extractAux_shift acc c1 (c2 :: rest) (fun hc1 => by
            simp only [List.head?_cons, ne_eq, Option.some.injEq]
            exact hseam hc1)
        have hnp2 : noPair ((c1 :: acc).reverse) = true := by
          rw [List.reverse_cons, noPair_snoc_iff]
          refine ⟨h1, ?_⟩
          rw [List.getLast?_reverse]
          rintro ⟨hg, hc⟩
          have := h2 hg
          simp only [List.cons_append, List.head?_cons, ne_eq, Option.some.injEq] at this
          exact this hc
        have hlen2 : (c2 :: rest).length ≤ m := by
          simp only [List.length_cons] at hlen ⊢
          omega
        have hseam2 : (c1 :: acc).head? = some '\n' → ((c2 :: rest) ++ B).head? ≠ some '\n' := by
          simp only [List.head?_cons, ne_eq, Option.some.injEq, List.cons_append]
          exact hseam
        have hih := ih (c2 :: rest) hlen2 (c1 :: acc) B hnp2 hseam2
        rw [hstepB, hih, hstep]

/-- Composition of the delimiter scan over concatenation: the frames of
`A ++ B` are the frames of `A` followed by those of the rescan of `A`'s
remainder with `B`, and the final remainder likewise. -/
theorem extractAux_append (A B : List Char) :
    extractAux [] (A ++ B) =
      ((extractAux [] A).1 ++ (extractAux [] ((extractAux [] A).2 ++ B)).1,
       (extractAux [] ((extractAux [] A).2 ++ B)).2) :=
  extractAux_append_aux A.length A le_rfl [] B (by simp [noPair]) (by simp)

/-- The remainder carried out of the delimiter scan is delimiter-free, and all
its characters come from the accumulator or the input. -/
theorem extractAux_rem (acc input : List Char) :
    noPair acc.reverse = true →
    (acc.head? = some '\n' → input.head? ≠ some '\n') →
    noPair (extractAux acc input).2 = true ∧
    (∀ x ∈ (extractAux acc input).2, x ∈ acc ∨ x ∈ input) := by
  induction acc, input using extractAux.induct with
  | case1 acc =>
    intro h1 _
    refine ⟨h1, ?_⟩
    intro x hx
    exact Or.inl (List.mem_reverse.mp hx)
  | case2 acc c =>
    intro h1 h2
    have hrem : (extractAux acc [c]).2 = acc.reverse ++ [c] := rfl
    rw [hrem]
    constructor
    · rw [noPair_snoc_iff]
      refine ⟨h1, ?_⟩
      rw [List.getLast?_reverse]
      rintro ⟨hg, hc⟩
      exact h2 hg (by simp [hc])
    · intro x hx
      rcases List.mem_append.mp hx with hx | hx
      · exact Or.inl (List.mem_reverse.mp hx)
      · exact Or.inr hx
  | case3 acc c1 c2 rest hpair ih =>
    intro _ _
    have heq : (extractAux acc (c1 :: c2 :: rest)).2 = (extractAux [] rest).2 := by
      simp [extractAux, hpair]
    rw [heq]
    obtain ⟨hnp, hmem⟩ := ih (by simp [noPair]) (by simp)
    refine ⟨hnp, ?_⟩
    intro x hx
    rcases hmem x hx with hx2 | hx2
    · simp at hx2
    · exact Or.inr (by simp [hx2])
  | case4 acc c1 c2 rest hnpair ih =>
    intro h1 h2
    have hseam : c1 = '\n' → c2 ≠ '\n' := by
      intro ha hb
      exact hnpair (by simp [ha, hb])
    have heq : extractAux acc (c1 :: c2 :: rest) = extractAux (c1 :: acc) (c2 :: rest) := by
      simp [extractAux, hnpair]
    rw [heq]
    have hnp2 : noPair ((c1 :: acc).reverse) = true := by
      rw [List.reverse_cons, noPair_snoc_iff]
      refine ⟨h1, ?_⟩
      rw [List.getLast?_reverse]
      rintro ⟨hg, hc⟩
      exact h2 hg (by simp [hc])
    obtain ⟨hnp, hmem⟩ := ih hnp2 (by
      simp only [List.head?_cons, ne_eq, Option.some.injEq]
      exact hseam)
    refine ⟨hnp, ?_⟩
    intro x hx
    rcases hmem x hx with hx2 | hx2
    · rcases List.mem_cons.mp hx2 with hx3 | hx3
      · exact Or.inr (by simp [hx3])
      · exact Or.inl hx3
    · exact Or.inr (by simp [List.mem_cons.mpr (Or.inr hx2)])

/-- Normalization never leaves a carriage return behind. -/
theorem normalizeNewlines_no_cr (l : List Char) : '\r' ∉ normalizeNewlines l := by
  induction l using normalizeNewlines.induct <;> simp_all [normalizeNewlines]
  all_goals (intro h; exact absurd h.symm (by assumption))

/-- Normalization is the identity on carriage-return-free text. -/
theorem normalizeNewlines_id (l : List Char) (h : '\r' ∉ l) :
    normalizeNewlines l = l := by
  induction l using normalizeNewlines.induct <;> simp_all [normalizeNewlines]

/-- Fueled form: normalization distributes over concatenation as long as the
boundary does not split a `"\r\n"` pair. -/
theorem normalizeNewlines_append_aux (n : Nat) :
    ∀ (a : List Char), a.length ≤ n → ∀ (b : List Char),
    (a.getLast? = some '\r' → b.head? ≠ some '\n') →
    normalizeNewlines (a ++ b) = normalizeNewlines a ++ normalizeNewlines b := by
  induction n with
  | zero =>
    intro a hlen b _
    have hnil : a = [] := List.eq_nil_of_length_eq_zero (Nat.le_zero.mp hlen)
    subst hnil
    simp [normalizeNewlines]
  | succ m ih =>
    intro a hlen b hcond
    match a with
    | [] => simp [normalizeNewlines]
    | [c] =>
      cases b with
      | nil => simp [normalizeNewlines]
      | cons b0 b2 =>
        by_cases hc : c = '\r'
        · subst hc
          have hb0 : b0 ≠ '\n' := by
            have := hcond (by simp)
            simpa using this
          simp [normalizeNewlines, hb0]
        · simp [normalizeNewlines, hc]
    | c1 :: c2 :: rest =>
      by_cases h1 : c1 = '\r'
      · by_cases h2 : c2 = '\n'
        · subst h1
          subst h2
          cases rest with
          | nil => simp [normalizeNewlines]
          | cons r rs =>
            have hlen2 : (r :: rs).length ≤ m := by
              simp only [List.length_cons] at hlen ⊢
              omega
            have hcond2 : (r :: rs).getLast? = some '\r' → b.head? ≠ some '\n' := by
              intro hg
              apply hcond
              rw [List.getLast?_cons_cons, List.getLast?_cons_cons] at *
              exact hg
            have hih := ih (r :: rs) hlen2 b hcond2
            have hshape : ('\r' :: '\n' :: r :: rs) ++ b = '\r' :: '\n' :: ((r :: rs) ++ b) := rfl
            rw [hshape]
            have e1 : normalizeNewlines ('\r' :: '\n' :: ((r :: rs) ++ b))
                = '\n' :: normalizeNewlines ((r :: rs) ++ b) := by
              simp [normalizeNewlines]
            have e2 : normalizeNewlines ('\r' :: '\n' :: (r :: rs))
                = '\n' :: normalizeNewlines (r :: rs) := by
              simp [normalizeNewlines]
            rw [e1, e2, hih]
            rfl
        · subst h1
          have hlen2 : (c2 :: rest).length ≤ m := by
            simp only [List.length_cons] at hlen ⊢
            omega
          have hcond2 : (c2 :: rest).getLast? = some '\r' → b.head? ≠ some '\n' := by
            intro hg
            apply hcond
            rw [List.getLast?_cons_cons]
            exact hg
          have hih := ih (c2 :: rest) hlen2 b hcond2
          have hshape : ('\r' :: c2 :: rest) ++ b = '\r' :: ((c2 :: rest) ++ b) := rfl
          rw [hshape]
          have e1 : normalizeNewlines ('\r' :: ((c2 :: rest) ++ b))
              = '\n' :: normalizeNewlines ((c2 :: rest) ++ b) := by
            have hne : ((c2 :: rest) ++ b : List Char) = c2 :: (rest ++ b) := rfl
            rw [hne]
            simp [normalizeNewlines, h2]
          have e2 : normalizeNewlines ('\r' :: c2 :: rest)
              = '\n' :: normalizeNewlines (c2 :: rest) := by
            simp [normalizeNewlines, h2]
          rw [e1, e2, hih]
          rfl
      · have hlen2 : (c2 :: rest).length ≤ m := by
          simp only [List.length_cons] at hlen ⊢
          omega
        have hcond2 : (c2 :: rest).getLast? = some '\r' → b.head? ≠ some '\n' := by
          intro hg
          apply hcond
          rw [List.getLast?_cons_cons]
          exact hg
        have hih := ih (c2 :: rest) hlen2 b hcond2
        have hshape : (c1 :: c2 :: rest) ++ b = c1 :: ((c2 :: rest) ++ b) := rfl
        rw [hshape]
        have e1 : normalizeNewlines (c1 :: ((c2 :: rest) ++ b))
            = c1 :: normalizeNewlines ((c2 :: rest) ++ b) := by
          have hne : ((c2 :: rest) ++ b : List Char) = c2 :: (rest ++ b) := rfl
          rw [hne]
          simp [normalizeNewlines, h1]
        have e2 : normalizeNewlines (c1 :: c2 :: rest)
            = c1 :: normalizeNewlines (c2 :: rest) := by
          simp [normalizeNewlines, h1]
        rw [e1, e2, hih]
        rfl

/-- Normalization distributes over concatenation when the boundary does not
split a `"\r\n"` pair. -/
theorem normalizeNewlines_append (a b : List Char)
    (h : a.getLast? = some '\r' → b.head? ≠ some '\n') :
    normalizeNewlines (a ++ b) = normalizeNewlines a ++ normalizeNewlines b :=
  normalizeNewlines_append_aux a.length a le_rfl b h

/-- Normalization of a concatenation with a carriage-return-free prefix. -/
theorem normalizeNewlines_append_left (a b : List Char) (h : '\r' ∉ a) :
    normalizeNewlines (a ++ b) = a ++ normalizeNewlines b := by
  rw [normalizeNewlines_append a b
    (fun hl => absurd (List.mem_of_getLast?_eq_some hl) h)]
  rw [normalizeNewlines_id a h]

/-- `processBuffer` is: normalize, then extract (the `indexOf('\r')` guard in
the source is an optimisation, since normalization fixes `'\r'`-free text). -/
theorem processBuffer_eq_norm (buf : List Char) :
    processBuffer buf = extractAux [] (normalizeNewlines buf) := by
  unfold processBuffer
  by_cases h : buf.contains '\r' = true
  · simp only [h]
    simp
  · have hmem : '\r' ∉ buf := by
      intro hm
      exact h (List.elem_eq_true_of_mem hm)
    simp only [h]
    rw [normalizeNewlines_id buf hmem]
    simp

/-- One-shot characterisation of the chunk loop: starting from a normalized,
delimiter-free carried buffer, feeding the chunks one by one emits exactly the
frames of processing the whole remaining text at once — provided no chunk
boundary splits a `"\r\n"` pair. -/
theorem sseRunAux_oneShot :
    ∀ (chunks : List (List Char)) (buf : List Char),
    '\r' ∉ buf → noPair buf = true → noSplitCR chunks = true →
    sseRunAux buf chunks = extractAux [] (normalizeNewlines (buf ++ chunks.flatten)) := by
  intro chunks
  induction chunks with
  | nil =>
    intro buf hcr hnp _
    simp only [List.flatten_nil, List.append_nil]
    rw [normalizeNewlines_id buf hcr, extractAux_noPair_id buf hnp]
    rfl
  | cons c cs ih =>
    intro buf hcr hnp hsplit
    have hsplit2 : noSplitCR cs = true ∧
        ¬(c.getLast? = some '\r' ∧ cs.flatten.head? = some '\n') := by
      unfold noSplitCR at hsplit
      rw [Bool.and_eq_true] at hsplit
      obtain ⟨hb, hrest⟩ := hsplit
      refine ⟨hrest, ?_⟩
      rintro ⟨hg, hh⟩
      rw [hg, hh] at hb
      simp at hb
    have hstep : sseRunAux buf (c :: cs)
        = ((processBuffer (buf ++ c)).1 ++ (sseRunAux (processBuffer (buf ++ c)).2 cs).1,
           (sseRunAux (processBuffer (buf ++ c)).2 cs).2) := rfl
    rw [hstep, processBuffer_eq_norm]
    have hAcr : '\r' ∉ normalizeNewlines (buf ++ c) := normalizeNewlines_no_cr _
    obtain ⟨hb1np, hb1mem⟩ :=
      extractAux_rem [] (normalizeNewlines (buf ++ c)) (by simp [noPair]) (by simp)
    have hb1cr : '\r' ∉ (extractAux [] (normalizeNewlines (buf ++ c))).2 := by
      intro hx
      rcases hb1mem _ hx with hx2 | hx2
      · simp at hx2
      · exact hAcr hx2
    rw [ih _ hb1cr hb1np hsplit2.1]
    have hbound : (buf ++ c).getLast? = some '\r' → cs.flatten.head? ≠ some '\n' := by
      intro hg hh
      rw [List.getLast?_append] at hg
      rcases hc2 : c.getLast? with _ | x
      · rw [hc2] at hg
        simp only [Option.none_or] at hg
        exact hcr (List.mem_of_getLast?_eq_some hg)
      · rw [hc2] at hg
        simp only [Option.or_some, Option.some.injEq] at hg
        exact hsplit2.2 ⟨by rw [hc2, hg], hh⟩
    symm
    calc extractAux [] (normalizeNewlines (buf ++ (c :: cs).flatten))
        = extractAux [] (normalizeNewlines ((buf ++ c) ++ cs.flatten)) := by
          rw [List.flatten_cons, List.append_assoc]
      _ = extractAux [] (normalizeNewlines (buf ++ c) ++ normalizeNewlines cs.flatten) := by
          rw [normalizeNewlines_append _ _ hbound]
      _ = ((extractAux [] (normalizeNewlines (buf ++ c))).1 ++
            (extractAux [] ((extractAux [] (normalizeNewlines (buf ++ c))).2 ++
              normalizeNewlines cs.flatten)).1,
           (extractAux [] ((extractAux [] (normalizeNewlines (buf ++ c))).2 ++
              normalizeNewlines cs.flatten)).2) := by
          rw [extractAux_append]
      _ = ((extractAux [] (normalizeNewlines (buf ++ c))).1 ++
            (extractAux [] (normalizeNewlines
              ((extractAux [] (normalizeNewlines (buf ++ c))).2 ++ cs.flatten))).1,
           (extractAux [] (normalizeNewlines
              ((extractAux [] (normalizeNewlines (buf ++ c))).2 ++ cs.flatten))).2) := by
          rw [normalizeNewlines_append_left _ _ hb1cr]

/-- **C2 (amended).** Chunk-boundary invariance of the re-segmenter for every
chunking that does not split a `"\r\n"` line ending across a read boundary:
two such chunkings of the same upstream text make the re-segmenter emit
exactly the same sequence of frames. -/
theorem sseFrames_chunk_invariant (cs1 cs2 : List (List Char))
    (h1 : noSplitCR cs1 = true) (h2 : noSplitCR cs2 = true)
    (hflat : cs1.flatten = cs2.flatten) :
    sseFrames cs1 = sseFrames cs2 := by
  have e1 : sseRunAux [] cs1 = extractAux [] (normalizeNewlines cs1.flatten) := by
    have := sseRunAux_oneShot cs1 [] (by simp) (by simp [noPair]) h1
    simpa using this
  have e2 : sseRunAux [] cs2 = extractAux [] (normalizeNewlines cs2.flatten) := by
    have := sseRunAux_oneShot cs2 [] (by simp) (by simp [noPair]) h2
    simpa using this
  show (sseRunAux [] cs1).1 ++ pumpFlush (sseRunAux [] cs1).2
      = (sseRunAux [] cs2).1 ++ pumpFlush (sseRunAux [] cs2).2
  rw [e1, e2, hflat]

/-- Witness for C2 (amended): two different `"\r\n"`-respecting chunkings of
the same SSE text produce identical frame sequences. -/
theorem sseFrames_chunk_invariant_witness :
    sseFrames ["data: a".toList, "b\r\nda".toList, "ta: c\n\n".toList]
      = sseFrames ["data: ab\r".toList ++ "\nd".toList, "ata: c\n".toList, "\n".toList] :=
  sseFrames_chunk_invariant _ _ (by decide) (by decide) (by decide)

/-- **C2 (counterexample).** Chunk-boundary invariance fails as universally
stated: splitting the same byte stream between the `'\r'` and `'\n'` of a
`"\r\n"` line ending changes the emitted frames, because `processBuffer`
eagerly normalizes a buffer-final bare `'\r'` to `'\n'` and the next chunk's
leading `'\n'` then completes a spurious blank-line delimiter. -/
theorem sseFrames_chunk_invariance_counterexample :
    ["data: x\r\ndata: y\n\n".toList].flatten
      = ["data: x\r".toList, "\ndata: y\n\n".toList].flatten ∧
    sseFrames ["data: x\r\ndata: y\n\n".toList]
      ≠ sseFrames ["data: x\r".toList, "\ndata: y\n\n".toList] := by
  decide

/-- The final remainder of the chunk loop is carriage-return-free and
delimiter-free, for every chunking. -/
theorem sseRunAux_rem_inv :
    ∀ (cs : List (List Char)) (buf : List Char), '\r' ∉ buf → noPair buf = true →
    '\r' ∉ (sseRunAux buf cs).2 ∧ noPair (sseRunAux buf cs).2 = true := by
  intro cs
  induction cs with
  | nil =>
    intro buf hcr hnp
    exact ⟨hcr, hnp⟩
  | cons c cs2 ih =>
    intro buf hcr hnp
    have hstep : (sseRunAux buf (c :: cs2)).2
        = (sseRunAux (processBuffer (buf ++ c)).2 cs2).2 := rfl
    rw [hstep]
    have hA : (processBuffer (buf ++ c)).2
        = (extractAux [] (normalizeNewlines (buf ++ c))).2 := by
      rw [processBuffer_eq_norm]
    obtain ⟨hb1np, hb1mem⟩ :=
      extractAux_rem [] (normalizeNewlines (buf ++ c)) (by simp [noPair]) (by simp)
    have hb1cr : '\r' ∉ (extractAux [] (normalizeNewlines (buf ++ c))).2 := by
      intro hx
      rcases hb1mem _ hx with hx2 | hx2
      · simp at hx2
      · exact normalizeNewlines_no_cr _ hx2
    rw [hA]
    exact ih _ hb1cr hb1np

/-- A delimiter-free text does not end with the blank-line delimiter. -/
theorem noPair_no_delim_suffix (r : List Char) (h : noPair r = true) :
    ¬(['\n', '\n'] <:+ r) := by
  rintro ⟨t, rfl⟩
  have hshape : t ++ ['\n', '\n'] = (t ++ ['\n']) ++ ['\n'] := by
    rw [List.append_assoc]
    rfl
  rw [hshape] at h
  obtain ⟨-, h2⟩ := (noPair_snoc_iff _ _).mp h
  exact h2 ⟨List.getLast?_concat t, rfl⟩

/-- **C8.** When the upstream closes while the re-segmenter still carries a
non-empty remainder, that remainder never already ends with the blank-line
delimiter, and the flush emits it — with a synthesized closing delimiter — as
the final frame: the frames of the whole run are the loop's frames followed by
exactly that remainder. -/
theorem pump_flushes_final_frame (cs : List (List Char))
    (hne : (sseRunAux [] cs).2 ≠ []) :
    ¬(['\n', '\n'] <:+ (sseRunAux [] cs).2) ∧
    sseFrames cs = (sseRunAux [] cs).1 ++ [(sseRunAux [] cs).2] := by
  obtain ⟨hcr, hnp⟩ := sseRunAux_rem_inv cs [] (by simp) (by simp [noPair])
  have hnosuf := noPair_no_delim_suffix _ hnp
  refine ⟨hnosuf, ?_⟩
  show (sseRunAux [] cs).1 ++ pumpFlush (sseRunAux [] cs).2 = _
  have hcontains : ((sseRunAux [] cs).2.contains '\r') = false := by
    rcases hcase : ((sseRunAux [] cs).2.contains '\r') with _ | _
    · rfl
    · exact absurd (List.mem_of_elem_eq_true hcase) hcr
  have hflush : pumpFlush (sseRunAux [] cs).2 = [(sseRunAux [] cs).2] := by
    unfold pumpFlush
    rw [if_neg hne]
    simp only [hcontains]
    simp only [Bool.false_eq_true, if_false]
    rw [if_neg hnosuf]
  rw [hflush]

/-- Witness for C8: a stream that closes mid-frame still emits the buffered
remainder `data: x` as its final frame. -/
theorem pump_flushes_final_frame_witness :
    ¬(['\n', '\n'] <:+ (sseRunAux [] ["data: a\n\ndata: x".toList]).2) ∧
    sseFrames ["data: a\n\ndata: x".toList]
      = (sseRunAux [] ["data: a\n\ndata: x".toList]).1 ++
        [(sseRunAux [] ["data: a\n\ndata: x".toList]).2] :=
  pump_flushes_final_frame ["data: a\n\ndata: x".toList] (by decide)
